import Mathlib

/-
  Verification of the query/filter/pagination engine and the export/copy
  serialization logic of the text-expander catalog application
  (src/types.ts and src/App.tsx), via a shallow embedding in Lean.

  Machine strings are modeled by Lean String; character-level operations of
  the host language (toLowerCase, includes, replace with a single-character
  global pattern) are modeled charwise over the underlying character list.
-/

/-- In-memory catalog record, from src/types.ts (interface ShortcutData):
field k is the keyword/shortcut, e the expansion, s the section/language tag. -/
structure ShortcutData where
  k : String
  e : String
  s : String
deriving DecidableEq

/-- Category filter selector, from src/types.ts (type SectionFilter). -/
inductive SectionFilter where
  | all
  | universal
  | spanish
  | english
deriving DecidableEq

/-- Charwise model of the host toLowerCase on the ASCII range
(Char.toLower lowers exactly the letters A-Z). -/
def jsToLower (t : String) : String :=
  String.mk (t.toList.map Char.toLower)

/-- Model of the host substring test hay.includes(pat): pat occurs
contiguously in hay (the empty pattern always occurs). -/
def jsIncludes (hay pat : String) : Bool :=
  (List.range (hay.toList.length + 1)).any fun i =>
    pat.toList.isPrefixOf (hay.toList.drop i)

/-- Embedding of filteredData, src/App.tsx lines 53-68: a category step
(the universal tab keeps records tagged "all", the spanish and english tabs
keep the matching tag, the all tab keeps everything) followed, when the
search term is non-empty, by a case-insensitive substring step over the
keyword and the expansion. -/
def filteredData (records : List ShortcutData) (activeTab : SectionFilter)
    (searchTerm : String) : List ShortcutData :=
  let data := records
  let data :=
    match activeTab with
    | .universal => data.filter fun i => i.s == "all"
    | .spanish => data.filter fun i => i.s == "spanish"
    | .english => data.filter fun i => i.s == "english"
    | .all => data
  if searchTerm.isEmpty then data
  else
    let lower := jsToLower searchTerm
    data.filter fun i =>
      jsIncludes (jsToLower i.k) lower || jsIncludes (jsToLower i.e) lower

/-- Stored category tag selected by each non-all filter value (in the code
the universal tab matches records whose tag is the string "all"). -/
def SectionFilter.tagValue : SectionFilter → String
  | .all => "all"
  | .universal => "all"
  | .spanish => "spanish"
  | .english => "english"

/-- Category step of the filter as the specification states it: a record
passes when the filter is the all selector, or when its category tag equals
the tag selected by the filter. -/
def specCategoryPass (c : SectionFilter) (r : ShortcutData) : Bool :=
  if c = .all then true else r.s == c.tagValue

/-- Text step of the filter as the specification states it: a record passes
when the search text is empty (raw emptiness check, no trimming), or when a
case-insensitive substring match succeeds against the keyword or the
expansion. -/
def specTextPass (searchTerm : String) (r : ShortcutData) : Bool :=
  if searchTerm = "" then true
  else
    jsIncludes (jsToLower r.k) (jsToLower searchTerm) ||
      jsIncludes (jsToLower r.e) (jsToLower searchTerm)

theorem filteredData_eq_filter (R : List ShortcutData) (c : SectionFilter)
    (s : String) :
    filteredData R c s = R.filter fun r => specCategoryPass c r && specTextPass s r := by
  by_cases hs : s = ""
  · subst hs
    cases c <;>
      simp [filteredData, specCategoryPass, specTextPass, SectionFilter.tagValue,
        show ("" : String).isEmpty = true from rfl]
  · have h1 : s.isEmpty = false := by
      cases hmm : s.isEmpty
      · rfl
      · exact absurd ((String.isEmpty_iff s).1 hmm) hs
    cases c <;>
      simp only [filteredData, h1, Bool.false_eq_true, if_false, if_neg hs,
        specCategoryPass, specTextPass, SectionFilter.tagValue, if_true,
        reduceCtorEq, reduceIte, List.filter_filter] <;>
      exact List.filter_congr fun a _ => by simp [Bool.and_comm]

/-- C1: for every catalog, category filter and search text, the filter
operation retains exactly the records passing both the category step (equality
with the selected category tag unless the filter is the all selector) and the
text step (case-insensitive substring match of a non-empty search text against
keyword or expansion, OR of the two; an empty search text retains all). -/
theorem filter_retains_exactly (R : List ShortcutData) (c : SectionFilter)
    (s : String) :
    filteredData R c s = R.filter fun r => specCategoryPass c r && specTextPass s r :=
  filteredData_eq_filter R c s

/-- C8: the filter operation is idempotent. -/
theorem filter_idempotent (R : List ShortcutData) (c : SectionFilter)
    (s : String) :
    filteredData (filteredData R c s) c s = filteredData R c s := by
  rw [filteredData_eq_filter, filteredData_eq_filter, List.filter_filter]
  exact List.filter_congr fun a _ => by
    cases specCategoryPass c a <;> cases specTextPass s a <;> rfl

/-- Fixed page size, src/App.tsx line 38 (itemsPerPage state, set to 100). -/
def itemsPerPage : Nat := 100

/-- Embedding of totalPages = Math.ceil(filteredData.length / itemsPerPage),
src/App.tsx line 71; for naturals with a positive page size the exact
ceiling of the division is (len + pageSize - 1) / pageSize. -/
def totalPages (len pageSize : Nat) : Nat :=
  (len + pageSize - 1) / pageSize

/-- Embedding of paginatedData, src/App.tsx lines 72-75:
filteredData.slice(start, start + itemsPerPage) with
start = (currentPage - 1) * itemsPerPage. -/
def paginatedData (l : List ShortcutData) (pageSize page : Nat) :
    List ShortcutData :=
  let start := (page - 1) * pageSize
  (l.drop start).take pageSize

theorem le_totalPages_mul (n p : Nat) (hp : 0 < p) :
    n ≤ totalPages n p * p := by
  unfold totalPages
  cases n with
  | zero => exact Nat.zero_le _
  | succ m =>
      have harg : m + 1 + p - 1 = m + p := by omega
      rw [harg, Nat.add_div_right m hp, Nat.succ_mul]
      have h1 : m % p < p := Nat.mod_lt _ hp
      have h2 : p * (m / p) + m % p = m := Nat.div_add_mod m p
      calc m + 1 = p * (m / p) + (m % p + 1) := by rw [← Nat.add_assoc, h2]
        _ ≤ p * (m / p) + p := Nat.add_le_add_left h1 _
        _ = m / p * p + p := by rw [Nat.mul_comm]

theorem totalPages_mul_lt (n p : Nat) (hp : 0 < p) :
    totalPages n p * p < n + p := by
  unfold totalPages
  exact Nat.lt_of_le_of_lt (Nat.div_mul_le_self (n + p - 1) p) (by omega)

theorem flatten_range_take (l : List ShortcutData) (p k : Nat) :
    ((List.range k).map fun i => (l.drop (i * p)).take p).flatten = l.take (k * p) := by
  induction k with
  | zero => simp
  | succ k ih =>
      rw [List.range_succ, List.map_append, List.flatten_append, ih]
      simp only [List.map_cons, List.map_nil, List.flatten_cons, List.flatten_nil,
        List.append_nil]
      rw [Nat.succ_mul, List.take_add]

/-- C7: concatenating the page slices for all pages 1 through totalPages
reconstructs exactly the filtered sequence. -/
theorem pagination_coverage (l : List ShortcutData) (p : Nat) (hp : 0 < p) :
    ((List.range (totalPages l.length p)).map fun i => paginatedData l p (i + 1)).flatten = l := by
  have he : (fun i => paginatedData l p (i + 1)) = fun i => (l.drop (i * p)).take p := by
    funext i
    simp [paginatedData]
  rw [he, flatten_range_take]
  exact List.take_of_length_le (le_totalPages_mul l.length p hp)

/-- Witness for C7 at a one-record catalog and page size one. -/
theorem pagination_coverage_witness :
    ((List.range (totalPages ([⟨"a", "b", "all"⟩] : List ShortcutData).length 1)).map
        fun i => paginatedData [⟨"a", "b", "all"⟩] 1 (i + 1)).flatten =
      [⟨"a", "b", "all"⟩] :=
  pagination_coverage [⟨"a", "b", "all"⟩] 1 (by decide)

/-- C6: the paginate operation returns the half-open slice from
(currentPage - 1) * pageSize to currentPage * pageSize with a silently
clipping end, and totalPages is the ceiling of length / pageSize (the unique
number of pages covering the length); for 150 records and page size 100 page
one has 100 items, page two has 50, and totalPages is 2. -/
theorem paginate_spec :
    (∀ (l : List ShortcutData) (pageSize page : Nat), 0 < pageSize → 1 ≤ page →
      paginatedData l pageSize page = (l.take (page * pageSize)).drop ((page - 1) * pageSize) ∧
      l.length ≤ totalPages l.length pageSize * pageSize ∧
      totalPages l.length pageSize * pageSize < l.length + pageSize) ∧
    (∀ r : ShortcutData,
      (paginatedData (List.replicate 150 r) 100 1).length = 100 ∧
      (paginatedData (List.replicate 150 r) 100 2).length = 50 ∧
      totalPages 150 100 = 2) := by
  constructor
  · intro l pageSize page hp hpage
    refine ⟨?_, le_totalPages_mul _ _ hp, totalPages_mul_lt _ _ hp⟩
    obtain ⟨q, rfl⟩ : ∃ q, page = q + 1 := ⟨page - 1, by omega⟩
    rw [List.drop_take]
    have harg : (q + 1) * pageSize - (q + 1 - 1) * pageSize = pageSize := by
      rw [Nat.add_sub_cancel, Nat.succ_mul, Nat.add_sub_cancel_left]
    rw [harg]
    rfl
  · intro r
    refine ⟨?_, ?_, by decide⟩ <;>
      simp [paginatedData, List.length_take, List.length_drop]

/-- Witness for C6 at the empty catalog, page size 100, page 1. -/
theorem paginate_spec_witness :
    (0 : Nat) < 100 ∧ (1 : Nat) ≤ 1 ∧
    (paginatedData ([] : List ShortcutData) 100 1 =
        (([] : List ShortcutData).take (1 * 100)).drop ((1 - 1) * 100) ∧
      ([] : List ShortcutData).length ≤ totalPages ([] : List ShortcutData).length 100 * 100 ∧
      totalPages ([] : List ShortcutData).length 100 * 100 < ([] : List ShortcutData).length + 100) :=
  ⟨by decide, by decide, paginate_spec.1 [] 100 1 (by decide) (by decide)⟩

/-- Embedding of the pagination controls render condition, src/App.tsx line
327: the controls block is emitted only when filteredData.length exceeds
itemsPerPage. -/
def showPaginationControls (len pageSize : Nat) : Bool :=
  len > pageSize

/-- C10: on an empty filtered result the implementation computes
totalPages = 0, the page slice is empty for every page, and the pagination
controls are rendered exactly when the filtered length strictly exceeds the
page size. -/
theorem empty_result_pagination :
    totalPages 0 itemsPerPage = 0 ∧
    (∀ page : Nat, paginatedData [] itemsPerPage page = []) ∧
    (∀ len : Nat, showPaginationControls len itemsPerPage = true ↔ itemsPerPage < len) := by
  refine ⟨by decide, ?_, ?_⟩
  · intro page
    simp [paginatedData]
  · intro len
    simp [showPaginationControls]

/-- Concatenation of a list of string pieces (structural form of joining,
used by the charwise models below). -/
def strConcat : List String → String
  | [] => ""
  | a :: l => a ++ strConcat l

/-- Charwise model of the host replace with a single-character global
pattern, t.replace(/c/g, rep): every occurrence of the character c in t is
replaced by the string rep. -/
def jsReplaceAll (t : String) (c : Char) (rep : String) : String :=
  strConcat (t.toList.map fun a => if a = c then rep else String.singleton a)

/-- Embedding of the exportCSV string construction, src/App.tsx lines
107-113: the accumulator starts with the header line, and for each record
the keyword and the expansion get their double quotes doubled, the expansion
additionally gets its newlines replaced by spaces, and the line appends the
three fields each between double quotes, comma separated, ending in a
newline; the s field is appended with no replacement. -/
def exportCSV (rs : List ShortcutData) : String :=
  rs.foldl
    (fun csv e =>
      let k := jsReplaceAll e.k '"' "\"\""
      let exp := jsReplaceAll (jsReplaceAll e.e '"' "\"\"") '\n' " "
      csv ++ "\"" ++ k ++ "\",\"" ++ exp ++ "\",\"" ++ e.s ++ "\"\n")
    "Shortcut,Expansion,Language\n"

/-- A field quoted the way the specification describes for all three
fields: enclosed in double quotes with every literal double quote doubled. -/
def csvQuoteField (t : String) : String :=
  "\"" ++ jsReplaceAll t '"' "\"\"" ++ "\""

/-- Record line of the delimited-text export exactly as the specification
claims it: all three fields quote-escaped, newlines of the expansion
collapsed to single spaces before quoting, fixed field order, newline
terminator. -/
def specCSVLine (r : ShortcutData) : String :=
  csvQuoteField r.k ++ "," ++
    csvQuoteField (jsReplaceAll r.e '\n' " ") ++ "," ++
    csvQuoteField r.s ++ "\n"

/-- Delimited-text export as the specification claims it. -/
def specExportCSV (rs : List ShortcutData) : String :=
  "Shortcut,Expansion,Language\n" ++ strConcat (rs.map specCSVLine)

/-- Record line the code actually produces, with the literal chunks of the
template string: keyword and expansion quote-escaped (the expansion also
newline-collapsed), but the category field emitted between quotes with no
escaping at all. -/
def csvLineActual (r : ShortcutData) : String :=
  "\"" ++ jsReplaceAll r.k '"' "\"\"" ++ "\",\"" ++
    jsReplaceAll (jsReplaceAll r.e '"' "\"\"") '\n' " " ++ "\",\"" ++ r.s ++ "\"\n"

theorem exportCSV_foldl (rs : List ShortcutData) (acc : String) :
    rs.foldl
      (fun csv e =>
        let k := jsReplaceAll e.k '"' "\"\""
        let exp := jsReplaceAll (jsReplaceAll e.e '"' "\"\"") '\n' " "
        csv ++ "\"" ++ k ++ "\",\"" ++ exp ++ "\",\"" ++ e.s ++ "\"\n") acc =
      acc ++ strConcat (rs.map csvLineActual) := by
  induction rs generalizing acc with
  | nil => simp [strConcat]
  | cons r rs ih =>
      rw [List.foldl_cons, ih, List.map_cons]
      show _ = acc ++ (csvLineActual r ++ strConcat (rs.map csvLineActual))
      simp only [csvLineActual, String.append_assoc]

theorem toList_append (x y : String) : (x ++ y).toList = x.toList ++ y.toList :=
  String.data_append x y

theorem strConcat_append (l1 l2 : List String) :
    strConcat (l1 ++ l2) = strConcat l1 ++ strConcat l2 := by
  induction l1 with
  | nil => simp [strConcat]
  | cons a l ih => simp [strConcat, ih, String.append_assoc]

theorem jsReplaceAll_append (x y : String) (c : Char) (rep : String) :
    jsReplaceAll (x ++ y) c rep = jsReplaceAll x c rep ++ jsReplaceAll y c rep := by
  unfold jsReplaceAll
  rw [toList_append, List.map_append, strConcat_append]

theorem jsReplaceAll_strConcat (l : List String) (c : Char) (rep : String) :
    jsReplaceAll (strConcat l) c rep = strConcat (l.map fun x => jsReplaceAll x c rep) := by
  induction l with
  | nil => rfl
  | cons a l ih =>
      show jsReplaceAll (a ++ strConcat l) c rep = _
      rw [jsReplaceAll_append, ih]
      rfl

theorem jsReplaceAll_singleton (a c : Char) (rep : String) :
    jsReplaceAll (String.singleton a) c rep = if a = c then rep else String.singleton a := by
  show strConcat [if a = c then rep else String.singleton a] = _
  by_cases h : a = c <;> simp [h, strConcat]

/-- Quote doubling and newline collapsing act on distinct characters, so
the two replacement passes over the expansion commute. -/
theorem escape_collapse_comm (t : String) :
    jsReplaceAll (jsReplaceAll t '"' "\"\"") '\n' " " =
      jsReplaceAll (jsReplaceAll t '\n' " ") '"' "\"\"" := by
  have hL : jsReplaceAll t '"' "\"\"" =
      strConcat (t.toList.map fun a => if a = '"' then "\"\"" else String.singleton a) := rfl
  have hR : jsReplaceAll t '\n' " " =
      strConcat (t.toList.map fun a => if a = '\n' then " " else String.singleton a) := rfl
  rw [hL, hR, jsReplaceAll_strConcat, jsReplaceAll_strConcat, List.map_map, List.map_map]
  refine congrArg strConcat (List.map_congr_left fun a _ => ?_)
  simp only [Function.comp]
  by_cases h1 : a = '"'
  · subst h1
    rw [if_pos rfl, if_neg (by decide), jsReplaceAll_singleton, if_pos rfl]
    decide
  · by_cases h2 : a = '\n'
    · subst h2
      rw [if_neg (by decide), if_pos rfl, jsReplaceAll_singleton, if_pos rfl]
      decide
    · rw [if_neg h1, if_neg h2, jsReplaceAll_singleton, if_neg h2,
        jsReplaceAll_singleton, if_neg h1]

/-- The line the code produces, read in the shape of the specification: the
keyword and expansion fields are quoted with doubling (the expansion first
newline-collapsed), while the category field sits between bare quotes. -/
theorem csvLineActual_spec_style (r : ShortcutData) :
    csvLineActual r =
      csvQuoteField r.k ++ "," ++ csvQuoteField (jsReplaceAll r.e '\n' " ") ++
        "," ++ "\"" ++ r.s ++ "\"\n" := by
  unfold csvLineActual csvQuoteField
  rw [escape_collapse_comm]
  rw [show ("\",\"" : String) = "\"" ++ ("," ++ "\"") from by decide]
  simp only [String.append_assoc]

/-- C4 counterexample: on a record whose category field contains a double
quote, the export does not escape it, so the output differs from the fully
quote-escaped format the claim describes. -/
theorem exportCSV_escapes_counterexample :
    exportCSV [⟨"k1", "e1", "a\"b"⟩] ≠ specExportCSV [⟨"k1", "e1", "a\"b"⟩] := by
  decide

/-- C4 amended: the delimited-text export is the header line followed by one
newline-terminated line per record in fixed field order keyword, expansion,
category, each field enclosed in double quotes, with double quotes doubled
in the keyword and expansion fields, newlines in the expansion collapsed to
single spaces before quoting, and the category field emitted with no
escaping. -/
theorem exportCSV_amended_spec (rs : List ShortcutData) :
    exportCSV rs = "Shortcut,Expansion,Language\n" ++ strConcat (rs.map csvLineActual) ∧
    ∀ r : ShortcutData,
      csvLineActual r =
        csvQuoteField r.k ++ "," ++ csvQuoteField (jsReplaceAll r.e '\n' " ") ++
          "," ++ "\"" ++ r.s ++ "\"\n" :=
  ⟨exportCSV_foldl rs "Shortcut,Expansion,Language\n", csvLineActual_spec_style⟩

/-- Lowercase hexadecimal digit character for a value below 16. -/
def hexDigit (n : Nat) : Char :=
  if n < 10 then Char.ofNat (48 + n) else Char.ofNat (87 + n)

/-- Escaping of one character inside a serialized string, as performed by
the host structured-text serializer: double quote, backslash and the named
control characters get a backslash escape, the remaining control characters
a four-digit unicode escape, and every other character stands for itself. -/
def jsonEscapeChar (c : Char) : String :=
  if c = '"' then "\\\""
  else if c = '\\' then "\\\\"
  else if c = '\n' then "\\n"
  else if c = '\t' then "\\t"
  else if c = '\r' then "\\r"
  else if c = '\x08' then "\\b"
  else if c = '\x0c' then "\\f"
  else if c.toNat < 32 then
    "\\u00" ++ String.singleton (hexDigit (c.toNat / 16)) ++
      String.singleton (hexDigit (c.toNat % 16))
  else String.singleton c

/-- A string value serialized between double quotes with escaping. -/
def jsonQuote (t : String) : String :=
  "\"" ++ strConcat (t.toList.map jsonEscapeChar) ++ "\""

/-- Rendering of one name/value field at the inner indentation level of a
two-space-indented array of objects. -/
def renderJsonField (f : String × String) : String :=
  "    " ++ jsonQuote f.1 ++ ": " ++ jsonQuote f.2

/-- Rendering of one object with a given field list at the element
indentation level. -/
def renderJsonObj (fields : List (String × String)) : String :=
  "  \x7b\n" ++ String.intercalate ",\n" (fields.map renderJsonField) ++ "\n  \x7d"

/-- Serialization of a sequence of field lists the way
JSON.stringify(value, null, 2) lays out an array of flat string-valued
objects: the empty array is a bare bracket pair, otherwise the elements sit
on their own lines joined by comma-newline. -/
def renderJsonArray (objs : List (List (String × String))) : String :=
  if objs.isEmpty then "[]"
  else "[\n" ++ String.intercalate ",\n" (objs.map renderJsonObj) ++ "\n]"

/-- Field list of the serialized object for one record: the serializer
enumerates the own properties of the in-memory object in insertion order,
which for ShortcutData is k, e, s. -/
def recordFields (r : ShortcutData) : List (String × String) :=
  [("k", r.k), ("e", r.e), ("s", r.s)]

/-- Embedding of exportJSON, src/App.tsx lines 122-123:
JSON.stringify(filteredData, null, 2). -/
def exportJSON (rs : List ShortcutData) : String :=
  renderJsonArray (rs.map recordFields)

/-- Field list the specification claims for each serialized object: names
keyword, expansion and category carrying the same three values. -/
def specRecordFields (r : ShortcutData) : List (String × String) :=
  [("keyword", r.k), ("expansion", r.e), ("category", r.s)]

/-- Structured-text export as the specification claims it, differing from
the embedding only in the field names. -/
def specExportJSON (rs : List ShortcutData) : String :=
  renderJsonArray (rs.map specRecordFields)

/-- C2 counterexample: already on a one-record sequence the structured-text
export does not carry the field names keyword/expansion/category; it emits
the in-memory names k/e/s instead. -/
theorem exportJSON_names_counterexample :
    exportJSON [⟨"a", "b", "all"⟩] ≠ specExportJSON [⟨"a", "b", "all"⟩] := by
  decide

/-- C2 amended: the structured-text export serializes the record sequence as
a two-space-indented sequence of objects whose field names are exactly the
in-memory names k, e and s (not keyword/expansion/category), in that order,
carrying the keyword, expansion and category values respectively. -/
theorem exportJSON_uses_memory_names (rs : List ShortcutData) :
    exportJSON rs = renderJsonArray (rs.map recordFields) ∧
    ∀ r : ShortcutData,
      (recordFields r).map Prod.fst = ["k", "e", "s"] ∧
      (recordFields r).map Prod.snd = [r.k, r.e, r.s] :=
  ⟨rfl, fun _ => ⟨rfl, rfl⟩⟩

/-- C5: on a zero-record input the delimited-text export is exactly the
header line and the structured-text export is exactly the empty array; both
exports are total functions, so neither can throw. -/
theorem export_empty_input :
    exportCSV [] = "Shortcut,Expansion,Language\n" ∧ exportJSON [] = "[]" :=
  ⟨rfl, rfl⟩

/-- Notification kind, from src/types.ts (ToastMessage type field). -/
inductive ToastType where
  | success
  | error
  | info
deriving DecidableEq

/-- One showToast call: the message and its kind (the monotonic id and the
expiry timer are presentation state outside the serialization logic). -/
structure ToastCall where
  message : String
  type : ToastType
deriving DecidableEq

/-- Embedding of copyToClipboard without a row id, src/App.tsx lines 88-98:
the text is passed to the host clipboard write, whose asynchronous outcome
is abstracted by the flag ok; the resolved continuation raises a success
toast and the rejected one an error toast. The first component lists the
toasts raised by the continuation, the second the texts passed to the
clipboard write. -/
def copyToClipboard (text : String) (ok : Bool) : List ToastCall × List String :=
  if ok then ([⟨"Copied to clipboard!", .success⟩], [text])
  else ([⟨"Failed to copy", .error⟩], [text])

/-- Embedding of copyVisible, src/App.tsx lines 100-105: an empty filtered
set short-circuits with one informational toast and no clipboard call;
otherwise the expansions joined by single newlines are passed to
copyToClipboard and a success toast reporting the count is raised
synchronously, before the asynchronous continuation resolves. -/
def copyVisible (fd : List ShortcutData) (ok : Bool) : List ToastCall × List String :=
  if fd.length = 0 then ([⟨"Nothing to copy", .info⟩], [])
  else
    let text := String.intercalate "\n" (fd.map fun i => i.e)
    let r := copyToClipboard text ok
    (⟨"Copied " ++ toString fd.length ++ " items!", .success⟩ :: r.1, r.2)

/-- C3: bulk copy on an empty filtered set raises exactly one informational
toast and passes nothing to the clipboard; on a non-empty set the expansions
joined by single newlines (no trailing newline) are the one text passed to
the clipboard, a success toast reporting the count is raised when the write
succeeds, and an error toast is raised when it fails. -/
theorem copyVisible_spec (fd : List ShortcutData) (ok : Bool) :
    (fd = [] → copyVisible fd ok = ([⟨"Nothing to copy", .info⟩], [])) ∧
    (fd ≠ [] →
      (copyVisible fd ok).2 = [String.intercalate "\n" (fd.map fun i => i.e)] ∧
      (ok = true →
        (⟨"Copied " ++ toString fd.length ++ " items!", .success⟩ : ToastCall) ∈
          (copyVisible fd ok).1) ∧
      (ok = false →
        (⟨"Failed to copy", .error⟩ : ToastCall) ∈ (copyVisible fd ok).1)) := by
  constructor
  · intro h
    subst h
    rfl
  · intro h
    have hlen : fd.length ≠ 0 := fun hc => h (List.length_eq_zero.1 hc)
    refine ⟨?_, ?_, ?_⟩
    · cases ok <;> simp [copyVisible, copyToClipboard, hlen]
    · intro hok
      subst hok
      simp [copyVisible, copyToClipboard, hlen]
    · intro hok
      subst hok
      simp [copyVisible, copyToClipboard, hlen]

/-- Witness for C3 at a one-record set with a succeeding clipboard write,
and at the empty set. -/
theorem copyVisible_spec_witness :
    (([] : List ShortcutData) = [] →
      copyVisible [] true = ([⟨"Nothing to copy", .info⟩], [])) ∧
    (([⟨"a", "hello", "all"⟩] : List ShortcutData) ≠ []) ∧
    (copyVisible [⟨"a", "hello", "all"⟩] true).2 =
      [String.intercalate "\n" (([⟨"a", "hello", "all"⟩] : List ShortcutData).map fun i => i.e)] :=
  ⟨(copyVisible_spec [] true).1,
    by decide,
    ((copyVisible_spec [⟨"a", "hello", "all"⟩] true).2 (by decide)).1⟩

/-- Query state of the application: the search term, the active category
tab and the current page number (src/App.tsx lines 35-37). -/
structure AppState where
  searchTerm : String
  activeTab : SectionFilter
  currentPage : Nat
deriving DecidableEq

/-- Number of pages of the filtered result in a given state. -/
def stTotalPages (cat : List ShortcutData) (st : AppState) : Nat :=
  totalPages (filteredData cat st.activeTab st.searchTerm).length itemsPerPage

/-- One user-driven state transition of the query state. Setting the search
term or the active tab carries the page reset of the effect at src/App.tsx
lines 78-80. The next and previous transitions (src/App.tsx lines 329-345)
are only enabled when the pagination controls are rendered (filtered length
above the page size) and the corresponding button is not disabled; they
clamp to the page bounds as in the code. -/
inductive Step (cat : List ShortcutData) : AppState → AppState → Prop where
  | setSearch (st : AppState) (s : String) :
      Step cat st ⟨s, st.activeTab, 1⟩
  | setTab (st : AppState) (t : SectionFilter) :
      Step cat st ⟨st.searchTerm, t, 1⟩
  | nextPage (st : AppState)
      (hv : itemsPerPage < (filteredData cat st.activeTab st.searchTerm).length)
      (hd : st.currentPage ≠ stTotalPages cat st) :
      Step cat st ⟨st.searchTerm, st.activeTab, min (stTotalPages cat st) (st.currentPage + 1)⟩
  | prevPage (st : AppState)
      (hv : itemsPerPage < (filteredData cat st.activeTab st.searchTerm).length)
      (hd : st.currentPage ≠ 1) :
      Step cat st ⟨st.searchTerm, st.activeTab, max 1 (st.currentPage - 1)⟩

/-- Initial query state: empty search, all tab, page one
(src/App.tsx lines 35-37). -/
def initState : AppState :=
  ⟨"", .all, 1⟩

/-- States reachable from the initial state by user transitions. -/
def Reachable (cat : List ShortcutData) (st : AppState) : Prop :=
  Relation.ReflTransGen (Step cat) initState st

/-- C9 counterexample: from a one-record catalog, entering a search text
matching nothing reaches a state whose filtered result is empty, so
totalPages is 0 while the current page is 1; the page therefore does not
lie within the interval from 1 to totalPages of the current filtered
result, refuting the range part of the claim. -/
theorem page_range_counterexample :
    Reachable [⟨"a", "b", "all"⟩] ⟨"z", .all, 1⟩ ∧
    (⟨"z", .all, 1⟩ : AppState).currentPage = 1 ∧
    stTotalPages [⟨"a", "b", "all"⟩] ⟨"z", .all, 1⟩ = 0 ∧
    ¬((⟨"z", .all, 1⟩ : AppState).currentPage ≤
        stTotalPages [⟨"a", "b", "all"⟩] ⟨"z", .all, 1⟩) :=
  ⟨Relation.ReflTransGen.single (Step.setSearch initState "z"),
    rfl, by decide, by decide⟩

/-- C9 amended: every transition that changes the category filter or the
search text resets the current page to 1, and on every reachable state the
current page lies within the interval from 1 to max 1 totalPages of the
current filtered result (the upper bound must allow page one when the
filtered result is empty and totalPages is 0). -/
theorem page_reset_invariant (cat : List ShortcutData) :
    (∀ st st' : AppState, Step cat st st' →
      st'.searchTerm ≠ st.searchTerm ∨ st'.activeTab ≠ st.activeTab →
      st'.currentPage = 1) ∧
    (∀ st : AppState, Reachable cat st →
      1 ≤ st.currentPage ∧ st.currentPage ≤ max 1 (stTotalPages cat st)) := by
  constructor
  · intro st st' hstep hch
    cases hstep with
    | setSearch s => rfl
    | setTab t => rfl
    | nextPage hv hd =>
        rcases hch with h | h <;> exact absurd rfl h
    | prevPage hv hd =>
        rcases hch with h | h <;> exact absurd rfl h
  · intro st h
    induction h with
    | refl => exact ⟨Nat.le_refl 1, Nat.le_max_left 1 _⟩
    | @tail b c hsteps hstep ih =>
        cases hstep with
        | setSearch s => exact ⟨Nat.le_refl 1, Nat.le_max_left 1 _⟩
        | setTab t => exact ⟨Nat.le_refl 1, Nat.le_max_left 1 _⟩
        | nextPage hv hd =>
            have hv' : 100 < (filteredData cat b.activeTab b.searchTerm).length := hv
            have htp : 1 ≤ stTotalPages cat b := by
              show 1 ≤ totalPages (filteredData cat b.activeTab b.searchTerm).length itemsPerPage
              unfold totalPages itemsPerPage
              exact (Nat.le_div_iff_mul_le (by decide)).2 (by omega)
            have hsame : stTotalPages cat ⟨b.searchTerm, b.activeTab,
                min (stTotalPages cat b) (b.currentPage + 1)⟩ = stTotalPages cat b := rfl
            refine ⟨?_, ?_⟩
            · show 1 ≤ min (stTotalPages cat b) (b.currentPage + 1)
              exact le_min htp (Nat.le_add_left 1 b.currentPage)
            · show min (stTotalPages cat b) (b.currentPage + 1) ≤
                max 1 (stTotalPages cat ⟨b.searchTerm, b.activeTab,
                  min (stTotalPages cat b) (b.currentPage + 1)⟩)
              rw [hsame]
              exact Nat.le_trans (Nat.min_le_left _ _) (Nat.le_max_right 1 _)
        | prevPage hv hd =>
            have hsame : stTotalPages cat ⟨b.searchTerm, b.activeTab,
                max 1 (b.currentPage - 1)⟩ = stTotalPages cat b := rfl
            refine ⟨Nat.le_max_left 1 _, ?_⟩
            show max 1 (b.currentPage - 1) ≤
              max 1 (stTotalPages cat ⟨b.searchTerm, b.activeTab,
                max 1 (b.currentPage - 1)⟩)
            rw [hsame]
            have hle : b.currentPage - 1 ≤ max 1 (stTotalPages cat b) :=
              Nat.le_trans (Nat.sub_le _ _) ih.2
            exact max_le (Nat.le_max_left 1 _) hle

/-- Witness for C9 at the empty catalog: the initial state is reachable and
satisfies the page range invariant; the search transition from it resets
the page to 1. -/
theorem page_reset_invariant_witness :
    (1 ≤ initState.currentPage ∧
      initState.currentPage ≤ max 1 (stTotalPages [] initState)) ∧
    (⟨"q", initState.activeTab, 1⟩ : AppState).currentPage = 1 :=
  ⟨(page_reset_invariant []).2 initState Relation.ReflTransGen.refl,
    (page_reset_invariant []).1 initState ⟨"q", initState.activeTab, 1⟩
      (Step.setSearch initState "q") (Or.inl (by decide))⟩
